import Mathlib

/-!
Shallow embedding of the rating backend of the obscure-sorrows-browser
repository (src/backend/database.py, src/backend/main.py,
src/backend/migrate_data.py).

The relational store is embedded as lists of rows: the `words` table as a
`List Word` and the `ratings` table as a `List Rating`.  SQLAlchemy queries
translate as follows: `filter(...).first()` over a table is `List.find?`
(SQLite returns rows of an unordered query in insertion order),
`filter(...).all()` is `List.filter`, aggregate `sum(case ...)`/`count` are
`List.countP`/`List.length`, `order_by(id).first()` is the minimum of the
matching ids and `order_by(id.desc()).first()` the maximum.  Real-number
arithmetic (Python floats) is embedded as exact rationals `ℚ`.  The uuid4
value minted for a cookie-less request is passed to the handler as an
explicit `minted` argument.  FastAPI's HTTPException is an `Except` error
value carrying the status code and detail string.
-/

namespace Sorrows

/-- Row of the `words` table (database.py, class Word). -/
structure Word where
  id : ℕ
  word : String
  definition : String
  part_of_speech : String
  etymology : String
  chapter : String
  concept : String
  tags : String
  example_sentences : String
deriving Repr, DecidableEq

/-- Row of the `ratings` table (database.py, class Rating).  The
`rating_type` column has default value "overall"; handlers in main.py never
set it, so every row they insert carries "overall". -/
structure Rating where
  user_id : String
  word_id : ℕ
  rating_type : String
  rating : ℤ
deriving Repr, DecidableEq

/-- An HTTPException as raised by the handlers in main.py. -/
structure HttpError where
  status : ℕ
  detail : String
deriving Repr, DecidableEq

/-- Identity Resolver (main.py, get_or_create_user_id): an absent cookie, an
empty cookie (falsy in Python) or the literal string "None" resolve to no
identity; any other cookie value is the identity. -/
def get_or_create_user_id (user_id : Option String) : Option String :=
  match user_id with
  | none => none
  | some s => if s = "" ∨ s = "None" then none else some s

/-- Round-half-to-even at integer precision, the rounding Python's `round`
uses (float representation error aside). -/
def roundHalfEven (x : ℚ) : ℤ :=
  let f : ℤ := ⌊x⌋
  let r : ℚ := x - f
  if r < 1/2 then f
  else if 1/2 < r then f + 1
  else if f % 2 = 0 then f else f + 1

/-- Python's `round(x, 1)`. -/
def pythonRound1 (x : ℚ) : ℚ := (roundHalfEven (10 * x) : ℚ) / 10

/-- The `percentages` sub-dict of the stats dict built by get_rating_stats. -/
structure Percentages where
  thumbs_down : ℚ
  hyphen : ℚ
  thumbs_up : ℚ
deriving Repr, DecidableEq

/-- The stats dict built by get_rating_stats (main.py): per-bucket counts of
the -1/0/1 ratings of a word, their total, and rounded percentages. -/
structure RatingStats where
  thumbs_down : ℕ
  hyphen : ℕ
  thumbs_up : ℕ
  total : ℕ
  percentages : Percentages
deriving Repr, DecidableEq

/-- main.py, get_rating_stats: aggregates over the ratings rows of one word.
`sum(case((rating == v, 1), else_=0))` is the count of rows with that value
and `count(Rating.id)` the number of matching rows. -/
def get_rating_stats (ledger : List Rating) (wid : ℕ) : RatingStats :=
  let rows := ledger.filter (fun r => r.word_id == wid)
  let td := rows.countP (fun r => r.rating == -1)
  let hy := rows.countP (fun r => r.rating == 0)
  let tu := rows.countP (fun r => r.rating == 1)
  let total := rows.length
  if total = 0 then
    ⟨0, 0, 0, 0, ⟨0, 0, 0⟩⟩
  else
    ⟨td, hy, tu, total,
      ⟨pythonRound1 ((td : ℚ) / (total : ℚ) * 100),
       pythonRound1 ((hy : ℚ) / (total : ℚ) * 100),
       pythonRound1 ((tu : ℚ) / (total : ℚ) * 100)⟩⟩

/-- `db.query(Word).filter(Word.id == wid).first()`. -/
def find_word_by_id (catalog : List Word) (wid : ℕ) : Option Word :=
  catalog.find? (fun w => w.id == wid)

/-- `db.query(Word).filter(Word.word == name).first()` (string equality in
SQL on these values is exact and case-sensitive as stored). -/
def find_word_by_name (catalog : List Word) (name : String) : Option Word :=
  catalog.find? (fun w => w.word == name)

/-- Python's `str.isdigit` restricted to the ASCII decimal digits that occur
in route identifiers. -/
def str_isdigit (s : String) : Bool := !s.data.isEmpty && s.data.all Char.isDigit

/-- Python's `int(s)` on an all-digit string. -/
def str_to_int (s : String) : ℕ := s.data.foldl (fun n c => 10 * n + (c.toNat - 48)) 0

/-- main.py, get_word (GET /api/word/...): id lookup first when the
identifier is all digits, name lookup second, none = the 404 branch. -/
def get_word (catalog : List Word) (word_identifier : String) : Option Word :=
  let byId :=
    if str_isdigit word_identifier then
      find_word_by_id catalog (str_to_int word_identifier)
    else none
  match byId with
  | some w => some w
  | none => find_word_by_name catalog word_identifier

/-- `db.query(Rating).filter(user_id == uid, word_id == wid).first()`. -/
def find_rating (ledger : List Rating) (uid : String) (wid : ℕ) : Option Rating :=
  ledger.find? (fun r => r.user_id == uid && r.word_id == wid)

/-- `existing_rating.rating = value` on the row `.first()` returned: the
first matching row keeps its identity and only its rating changes. -/
def update_first_rating : List Rating → String → ℕ → ℤ → List Rating
  | [], _, _, _ => []
  | r :: rest, uid, wid, v =>
    if r.user_id = uid ∧ r.word_id = wid then { r with rating := v } :: rest
    else r :: update_first_rating rest uid wid v

/-- `db.delete(existing_rating)` on the row `.first()` returned. -/
def remove_first_rating : List Rating → String → ℕ → List Rating
  | [], _, _ => []
  | r :: rest, uid, wid =>
    if r.user_id = uid ∧ r.word_id = wid then rest
    else r :: remove_first_rating rest uid wid

/-- main.py, rate_word (POST /api/rate).  `minted` is the uuid4 the handler
generates when the cookie resolves to no identity; the resolved identity is
used for the duplicate check and for the inserted row alike.  Checks in
source order: word existence (404), then the rating value (400), then
update-or-insert; a row inserted without rating_type gets the column default
"overall". -/
def rate_word (catalog : List Word) (ledger : List Rating)
    (cookie : Option String) (minted : String)
    (wid : ℕ) (value : ℤ) : Except HttpError (List Rating × RatingStats) :=
  let uid := (get_or_create_user_id cookie).getD minted
  match find_word_by_id catalog wid with
  | none => .error ⟨404, "Word not found"⟩
  | some _ =>
    if value = -1 ∨ value = 0 ∨ value = 1 then
      let ledger' :=
        match find_rating ledger uid wid with
        | some _ => update_first_rating ledger uid wid value
        | none => ledger ++ [⟨uid, wid, "overall", value⟩]
      .ok (ledger', get_rating_stats ledger' wid)
    else .error ⟨400, "Rating must be -1, 0, or 1"⟩

/-- main.py, unrate_word (DELETE /api/rate/...).  No identity is a 401 (no
minting here), an unknown word a 404; deleting is a no-op when the user has
no rating row for the word. -/
def unrate_word (catalog : List Word) (ledger : List Rating)
    (cookie : Option String) (wid : ℕ) : Except HttpError (List Rating × RatingStats) :=
  match get_or_create_user_id cookie with
  | none => .error ⟨401, "User not authenticated"⟩
  | some uid =>
    match find_word_by_id catalog wid with
    | none => .error ⟨404, "Word not found"⟩
    | some _ =>
      let ledger' :=
        match find_rating ledger uid wid with
        | some _ => remove_first_rating ledger uid wid
        | none => ledger
      .ok (ledger', get_rating_stats ledger' wid)

/-- main.py, get_rated_words (GET /api/rated-words): the word ids of every
rating row of the resolved user, with no condition on rating_type. -/
def get_rated_words (ledger : List Rating) (uid : String) : List ℕ :=
  (ledger.filter (fun r => r.user_id == uid)).map (fun r => r.word_id)

/-- The ids of the catalog. -/
def word_ids (catalog : List Word) : List ℕ := catalog.map (fun w => w.id)

/-- main.py, get_next_word_id: the least id above the current one, wrapping
to the least id of the catalog; none = the 404 branch (empty catalog). -/
def get_next_word_id (catalog : List Word) (current : ℕ) : Option ℕ :=
  match ((word_ids catalog).filter (fun i => current < i)).min? with
  | some i => some i
  | none => (word_ids catalog).min?

/-- main.py, get_prev_word_id: the greatest id below the current one,
wrapping to the greatest id of the catalog. -/
def get_prev_word_id (catalog : List Word) (current : ℕ) : Option ℕ :=
  match ((word_ids catalog).filter (fun i => i < current)).max? with
  | some i => some i
  | none => (word_ids catalog).max?

/-- One element of the list main.py's get_leaderboard returns. -/
structure LeaderboardEntry where
  word_id : ℕ
  word : String
  score : ℤ
  thumbs_up : ℕ
  thumbs_down : ℕ
  hyphen : ℕ
  total_ratings : ℕ
deriving Repr, DecidableEq

/-- Insert x behind every element that may stay before it. -/
def insert_le {α : Type} (le : α → α → Bool) (x : α) : List α → List α
  | [] => [x]
  | y :: t => if le y x then y :: insert_le le x t else x :: y :: t

/-- Stable sort for the total preorder `le` (le a b = "a may be placed no
later than b").  Python's `list.sort` is specified as a stable sort, and a
stable sort's output is determined by the preorder, so this insertion sort
computes exactly its result. -/
def stable_sort {α : Type} (le : α → α → Bool) (l : List α) : List α :=
  l.foldl (fun acc x => insert_le le x acc) []

/-- The comparison Python's `sort(key=lambda x: (x[0], x[1].total_ratings),
reverse=True)` realises on the sort keys: descending lexicographic order on
(bayesian score, total ratings), ties keeping list order. -/
def leaderboard_key_le (x y : ℚ × ℕ) : Bool :=
  decide (y.1 < x.1) || (decide (x.1 = y.1) && decide (y.2 ≤ x.2))

/-- main.py, get_leaderboard: `prior_weight = 10`. -/
def prior_weight : ℚ := 10

/-- The global prior of main.py's get_leaderboard: total net score over
total rating count across the whole catalog, 0.0 with no ratings at all. -/
def global_prior (catalog : List Word) (ledger : List Rating) : ℚ :=
  let all_stats := catalog.map (fun w => get_rating_stats ledger w.id)
  let total_all_ratings : ℕ := (all_stats.map (fun s => s.total)).sum
  let total_all_net : ℤ :=
    (all_stats.map (fun s => (s.thumbs_up : ℤ) - (s.thumbs_down : ℤ))).sum
  if 0 < total_all_ratings then (total_all_net : ℚ) / (total_all_ratings : ℚ) else 0

/-- The Bayesian score main.py's get_leaderboard sorts by, as a function of
a word's own stats (carried verbatim in its leaderboard entry) and the
global prior: the count-weighted blend of the word's net average with the
prior, and the sentinel -1000.0 for a word with no ratings. -/
def bayesian_score (prior : ℚ) (e : LeaderboardEntry) : ℚ :=
  if 0 < e.total_ratings then
    let average_rating : ℚ :=
      ((e.thumbs_up : ℚ) - (e.thumbs_down : ℚ)) / (e.total_ratings : ℚ)
    ((e.total_ratings : ℚ) * average_rating + prior_weight * prior)
      / ((e.total_ratings : ℚ) + prior_weight)
  else -1000

/-- The LeaderboardEntry main.py's get_leaderboard builds for one word from
that word's stats. -/
def leaderboard_entry (ledger : List Rating) (w : Word) : LeaderboardEntry :=
  let stats := get_rating_stats ledger w.id
  ⟨w.id, w.word, (stats.thumbs_up : ℤ) - (stats.thumbs_down : ℤ),
    stats.thumbs_up, stats.thumbs_down, stats.hyphen, stats.total⟩

/-- main.py, get_leaderboard (GET /api/leaderboard): build an entry per
catalog word from its stats, pair it with the key (bayesian score, total
ratings), stable-sort descending by the key, return the entries. -/
def get_leaderboard (catalog : List Word) (ledger : List Rating) : List LeaderboardEntry :=
  let prior_rating := global_prior catalog ledger
  let entries : List ((ℚ × ℕ) × LeaderboardEntry) := catalog.map (fun w =>
    ((bayesian_score prior_rating (leaderboard_entry ledger w),
      (leaderboard_entry ledger w).total_ratings), leaderboard_entry ledger w))
  (stable_sort (fun x y => leaderboard_key_le x.1 y.1) entries).map (fun p => p.2)

/-- One entry of the dictionary.json source list that migrate_data.py reads
(keys "Word", "Definition", "Part of Speech", ...). -/
structure SourceEntry where
  name : String
  definition : String
  part_of_speech : String
  etymology : String
  chapter : String
  concept : String
  tags : String
  example_sentences : String
deriving Repr, DecidableEq

/-- migrate_data.py, update branch: overwrite the descriptive fields of an
existing word row; its id and its name are not assigned. -/
def update_word_fields (w : Word) (e : SourceEntry) : Word :=
  { w with
    definition := e.definition
    part_of_speech := e.part_of_speech
    etymology := e.etymology
    chapter := e.chapter
    concept := e.concept
    tags := e.tags
    example_sentences := e.example_sentences }

/-- migrate_data.py, insert branch: a fresh row whose id the storage layer
assigns from its autoincrement counter. -/
def new_word (wid : ℕ) (e : SourceEntry) : Word :=
  ⟨wid, e.name, e.definition, e.part_of_speech, e.etymology, e.chapter,
    e.concept, e.tags, e.example_sentences⟩

/-- Apply the update branch to the row `.first()` returns. -/
def update_first_word : List Word → SourceEntry → List Word
  | [], _ => []
  | w :: tl, e =>
    if w.word = e.name then update_word_fields w e :: tl
    else w :: update_first_word tl e

/-- One iteration of migrate_data.py's loop over the incoming entries, on
(words table, autoincrement counter): skip a nameless entry, update the
existing row of a matching name in place, else insert a fresh row. -/
def migrate_step (s : List Word × ℕ) (e : SourceEntry) : List Word × ℕ :=
  if e.name = "" then s
  else if s.1.any (fun w => w.word == e.name) then (update_first_word s.1 e, s.2)
  else (s.1 ++ [new_word s.2 e], s.2 + 1)

/-- The database state the catalog reload acts on: the words table with its
autoincrement counter, and the ratings table. -/
structure DbState where
  words : List Word
  next_id : ℕ
  ratings : List Rating
deriving Repr, DecidableEq

/-- migrate_data.py, migrate_data: fold the loop over the incoming entries.
The function touches only the words table; the ratings table passes through
untouched, and no row of the words table is ever deleted. -/
def migrate_data (db : DbState) (entries : List SourceEntry) : DbState :=
  let ws := entries.foldl migrate_step (db.words, db.next_id)
  ⟨ws.1, ws.2, db.ratings⟩

/-- The number of rating rows attached to a word id. -/
def count_ratings_for (ledger : List Rating) (wid : ℕ) : ℕ :=
  ledger.countP (fun r => r.word_id == wid)

/-- The per-(user, word) uniqueness that rate_word's update-or-insert keeps:
at most one rating row per (user_id, word_id) pair. -/
def at_most_one_per_key (ledger : List Rating) : Prop :=
  ∀ u wid, ledger.countP (fun r => r.user_id == u && r.word_id == wid) ≤ 1

/-- The spec's invariant: at most one rating row per (user, word, dimension)
triple. -/
def at_most_one_per_triple (ledger : List Rating) : Prop :=
  ∀ u wid t,
    ledger.countP
      (fun r => r.user_id == u && r.word_id == wid && r.rating_type == t) ≤ 1

/-- Modelled from the spec: the values of a word's ratings in the 'overall'
dimension, the data of §4.5's `average` (the handler in src has no
per-dimension stats to compare against). -/
def spec_overall_values (ledger : List Rating) (wid : ℕ) : List ℤ :=
  (ledger.filter (fun r => r.word_id == wid && r.rating_type == "overall")).map
    (fun r => r.rating)

/-- Modelled from the spec: the arithmetic mean of a word's 'overall'
ratings, 0.0 when it has none (§4.5). -/
def spec_average (ledger : List Rating) (wid : ℕ) : ℚ :=
  let vs := spec_overall_values ledger wid
  if vs.length = 0 then 0 else ((vs.sum : ℤ) : ℚ) / (vs.length : ℚ)

/-- Modelled from the spec: a word's total 'overall' rating count, the
tie-break key of §4.5. -/
def spec_count (ledger : List Rating) (wid : ℕ) : ℕ :=
  (spec_overall_values ledger wid).length

/-- Modelled from the spec: the word ids for which a user has an 'overall'
rating (§4.3, list_rated_word_ids). -/
def spec_overall_rated_ids (ledger : List Rating) (uid : String) : List ℕ :=
  (ledger.filter (fun r => r.user_id == uid && r.rating_type == "overall")).map
    (fun r => r.word_id)

/-- Decidable equality of handler results, for evaluating them on concrete
inputs. -/
instance {e a : Type} [DecidableEq e] [DecidableEq a] : DecidableEq (Except e a)
  | .error x, .error y => decidable_of_iff (x = y) (by simp)
  | .error _, .ok _ => .isFalse (by simp)
  | .ok _, .error _ => .isFalse (by simp)
  | .ok x, .ok y => decidable_of_iff (x = y) (by simp)

/-! ### Concrete fixtures -/

/-- A catalog word with empty descriptive fields. -/
def exW (i : ℕ) (n : String) : Word := ⟨i, n, "", "", "", "", "", "", ""⟩

/-- A three-word catalog. -/
def exCatalog : List Word := [exW 1 "alpha", exW 2 "beta", exW 3 "gamma"]

/-- Four ratings: word 1 one hyphen, word 2 two hyphens, word 3 one thumbs
up; every row in the 'overall' dimension, as every row main.py writes is. -/
def exLedger : List Rating :=
  [⟨"u1", 1, "overall", 0⟩, ⟨"u2", 2, "overall", 0⟩,
   ⟨"u3", 2, "overall", 0⟩, ⟨"u4", 3, "overall", 1⟩]

/-! ### Theorems -/

unseal Rat.add Rat.mul Rat.inv Rat.sub in
/-- Claim C1, counterexample: on `exLedger` words 1 and 2 have the same
'overall' average (0) and word 2 has the larger rating count (2 over 1), yet
get_leaderboard places word 1 before word 2 — its Bayesian smoothing pulls
the once-rated word further toward the (positive) global prior — refuting
descending (average, count) order.  (Keys: prior = 1/4; word 3 scores 7/22,
word 1 scores 5/22, word 2 scores 5/24.) -/
theorem leaderboard_not_sorted_by_average_count :
    (get_leaderboard exCatalog exLedger).map (fun e => e.word_id) = [3, 1, 2] ∧
    spec_average exLedger 1 = spec_average exLedger 2 ∧
    spec_count exLedger 1 < spec_count exLedger 2 := by
  decide

unseal Rat.add Rat.mul Rat.inv Rat.sub in
/-- Claim C3: the shipped rate_word handler still validates against the old
three-state model: it rejects the star rating 5 for an existing word with
400 "Rating must be -1, 0, or 1", and accepts -1 — the exact opposite of the
claim's 1..5 validation (the request model has no rating_type field at all). -/
theorem rate_word_rejects_star_ratings :
    rate_word exCatalog [] (some "u") "m" 1 5 =
      .error ⟨400, "Rating must be -1, 0, or 1"⟩ ∧
    rate_word exCatalog [] (some "u") "m" 1 (-1) =
      .ok ([⟨"u", 1, "overall", -1⟩], ⟨1, 0, 0, 1, ⟨100, 0, 0⟩⟩) := by
  decide

unseal Rat.add Rat.mul Rat.inv Rat.sub in
/-- Claim C4: get_rating_stats still aggregates the old -1/0/1 buckets and
returns no mean and no per-user value: on a ledger holding the single rating
value 3 (exactly what the repository's migrate_ratings.py produces from an
old hyphen rating) it reports total 1 with every bucket 0. -/
theorem get_rating_stats_misses_star_values :
    get_rating_stats [⟨"u", 1, "overall", 3⟩] 1 = ⟨0, 0, 0, 1, ⟨0, 0, 0⟩⟩ := by
  decide

/-- Claim C7, counterexample: on a ledger whose only row for user u1 is a
'usefulness' rating of word 1, get_rated_words returns word 1 even though u1
has no 'overall' rating at all — the query has no rating_type condition. -/
theorem rated_words_ignores_dimension :
    get_rated_words [⟨"u1", 1, "usefulness", 3⟩] "u1" = [1] ∧
    spec_overall_rated_ids [⟨"u1", 1, "usefulness", 3⟩] "u1" = [] := by
  decide

/-- Claim C7, amended: get_rated_words returns exactly the word ids for
which the user has a rating row in any dimension (no rating_type filter). -/
theorem get_rated_words_amended (L : List Rating) (u : String) (w : ℕ) :
    w ∈ get_rated_words L u ↔ ∃ r, r ∈ L ∧ r.user_id = u ∧ r.word_id = w := by
  simp only [get_rated_words, List.mem_map, List.mem_filter, beq_iff_eq]
  constructor
  · rintro ⟨r, ⟨hr, hu⟩, hw⟩
    exact ⟨r, hr, hu, hw⟩
  · rintro ⟨r, hr, hu, hw⟩
    exact ⟨r, ⟨hr, hu⟩, hw⟩

/-- Claim C9: get_word resolves an all-digit identifier by id first; the
name lookup runs exactly when the identifier is not all digits or the id
lookup found nothing; the result is none exactly when neither lookup
matches. -/
theorem get_word_spec (catalog : List Word) (ident : String) (wd : Word) :
    (str_isdigit ident = true →
      find_word_by_id catalog (str_to_int ident) = some wd →
      get_word catalog ident = some wd) ∧
    ((str_isdigit ident = false ∨
        find_word_by_id catalog (str_to_int ident) = none) →
      get_word catalog ident = find_word_by_name catalog ident) ∧
    (get_word catalog ident = none ↔
      (str_isdigit ident = true →
        find_word_by_id catalog (str_to_int ident) = none) ∧
      find_word_by_name catalog ident = none) := by
  refine ⟨?_, ?_, ?_⟩
  · intro hd hf
    simp [get_word, hd, hf]
  · rintro (hd | hf)
    · simp [get_word, hd]
    · cases hd : str_isdigit ident <;> simp [get_word, hd, hf]
  · cases hd : str_isdigit ident
    · simp [get_word, hd]
    · cases hf : find_word_by_id catalog (str_to_int ident) <;>
        simp [get_word, hd, hf]

/-- Claim C10: a request whose cookie is absent or the literal "None"
resolves to no identity, so rate_word uses the freshly minted uuid for the
duplicate check and the inserted row alike; two cookie-less rate requests
for the same word, minting distinct identities, leave two separate rating
rows — the second does not overwrite the first. -/
theorem rate_word_fresh_identities (cat : List Word) (w : ℕ)
    (u1 u2 : String) (r1 r2 : ℤ)
    (hw : (find_word_by_id cat w).isSome)
    (hne : u1 ≠ u2)
    (h1 : r1 = -1 ∨ r1 = 0 ∨ r1 = 1) (h2 : r2 = -1 ∨ r2 = 0 ∨ r2 = 1) :
    get_or_create_user_id none = none ∧
    get_or_create_user_id (some "None") = none ∧
    (∃ s1, rate_word cat [] none u1 w r1 = .ok ([⟨u1, w, "overall", r1⟩], s1)) ∧
    (∃ s2, rate_word cat [⟨u1, w, "overall", r1⟩] none u2 w r2 =
      .ok ([⟨u1, w, "overall", r1⟩, ⟨u2, w, "overall", r2⟩], s2)) := by
  obtain ⟨wd, hwd⟩ := Option.isSome_iff_exists.mp hw
  refine ⟨rfl, rfl, ?_, ?_⟩
  · refine ⟨get_rating_stats [⟨u1, w, "overall", r1⟩] w, ?_⟩
    simp [rate_word, hwd, get_or_create_user_id, find_rating, if_pos h1]
  · refine ⟨get_rating_stats [⟨u1, w, "overall", r1⟩, ⟨u2, w, "overall", r2⟩] w, ?_⟩
    have hb : (u1 == u2) = false := beq_eq_false_iff_ne.mpr hne
    have hfind : find_rating [⟨u1, w, "overall", r1⟩] u2 w = none := by
      simp [find_rating, List.find?, hb]
    simp [rate_word, hwd, get_or_create_user_id, hfind, if_pos h2]

/-- Witness for rate_word_fresh_identities at a concrete catalog, word and
pair of minted identities. -/
theorem rate_word_fresh_identities_witness :
    get_or_create_user_id none = none ∧
    get_or_create_user_id (some "None") = none ∧
    (∃ s1, rate_word exCatalog [] none "a" 1 1 = .ok ([⟨"a", 1, "overall", 1⟩], s1)) ∧
    (∃ s2, rate_word exCatalog [⟨"a", 1, "overall", 1⟩] none "b" 1 0 =
      .ok ([⟨"a", 1, "overall", 1⟩, ⟨"b", 1, "overall", 0⟩], s2)) :=
  rate_word_fresh_identities exCatalog 1 "a" "b" 1 0 (by decide)
    (by decide) (by decide) (by decide)

/-! ### Ledger bookkeeping lemmas -/

/-- The in-place update changes only the rating value, so any count of rows
by a predicate blind to the rating value is unchanged. -/
theorem countP_update_first_rating (p : Rating → Bool)
    (hp : ∀ r v, p { r with rating := v } = p r)
    (L : List Rating) (u : String) (w : ℕ) (v : ℤ) :
    (update_first_rating L u w v).countP p = L.countP p := by
  induction L with
  | nil => rfl
  | cons r rest ih =>
    unfold update_first_rating
    by_cases h : r.user_id = u ∧ r.word_id = w
    · rw [if_pos h]
      simp only [List.countP_cons, hp r v]
    · rw [if_neg h]
      simp only [List.countP_cons, ih]

/-- A ledger with no row for (u, w) counts zero such rows. -/
theorem countP_key_eq_zero_of_find_rating_none
    (L : List Rating) (u : String) (w : ℕ)
    (hf : find_rating L u w = none) :
    L.countP (fun r => r.user_id == u && r.word_id == w) = 0 := by
  rw [List.countP_eq_zero]
  intro r hr
  have := List.find?_eq_none.mp hf r hr
  simpa using this

/-- Deleting the first (u, w) row drops that key's count by one. -/
theorem countP_key_remove_first_rating
    (L : List Rating) (u : String) (w : ℕ)
    (hf : (find_rating L u w).isSome) :
    (remove_first_rating L u w).countP
        (fun r => r.user_id == u && r.word_id == w) + 1 =
      L.countP (fun r => r.user_id == u && r.word_id == w) := by
  induction L with
  | nil => simp [find_rating] at hf
  | cons r rest ih =>
    unfold remove_first_rating
    by_cases h : r.user_id = u ∧ r.word_id = w
    · have hpr : (r.user_id == u && r.word_id == w) = true := by
        simp [h.1, h.2]
      rw [if_pos h]
      simp [List.countP_cons, hpr]
    · have hpr : (r.user_id == u && r.word_id == w) = false := by
        rcases not_and_or.mp h with h' | h' <;>
          simp [beq_eq_false_iff_ne.mpr h']
      have htl : (find_rating rest u w).isSome := by
        simpa [find_rating, List.find?_cons, hpr] using hf
      rw [if_neg h]
      simp only [List.countP_cons, hpr]
      simpa using ih htl

/-- Deleting the first (u, w) row leaves every other row in place. -/
theorem filter_not_key_remove_first_rating
    (L : List Rating) (u : String) (w : ℕ) :
    (remove_first_rating L u w).filter
        (fun r => !(r.user_id == u && r.word_id == w)) =
      L.filter (fun r => !(r.user_id == u && r.word_id == w)) := by
  induction L with
  | nil => rfl
  | cons r rest ih =>
    unfold remove_first_rating
    by_cases h : r.user_id = u ∧ r.word_id = w
    · have hpr : (r.user_id == u && r.word_id == w) = true := by
        simp [h.1, h.2]
      rw [if_pos h]
      simp only [List.filter_cons, hpr]
      simp
    · have hpr : (r.user_id == u && r.word_id == w) = false := by
        rcases not_and_or.mp h with h' | h' <;>
          simp [beq_eq_false_iff_ne.mpr h']
      rw [if_neg h]
      simp only [List.filter_cons, hpr]
      simpa using ih

/-- A row matching a (user, word, dimension) triple matches its (user, word)
pair, so the triple count never exceeds the pair count. -/
theorem countP_triple_le_countP_key (L : List Rating) (u : String) (w : ℕ)
    (t : String) :
    L.countP (fun r => r.user_id == u && r.word_id == w && r.rating_type == t) ≤
      L.countP (fun r => r.user_id == u && r.word_id == w) := by
  apply List.countP_mono_left
  intro r _ hr
  simp only [Bool.and_eq_true] at hr ⊢
  exact hr.1

/-- Claim C2: rate_word's update-or-insert keeps at most one rating row per
(user, word) pair — hence at most one per (user, word, dimension) triple —
and rating the same word twice as the same user leaves exactly one row
holding the later value; the stats of that word then report total 1 with the
later value's bucket at 1. -/
theorem rate_word_upsert_unique (cat : List Word) (w : ℕ) (u : String)
    (r1 r2 : ℤ)
    (hw : (find_word_by_id cat w).isSome)
    (h1 : r1 = -1 ∨ r1 = 0 ∨ r1 = 1) (h2 : r2 = -1 ∨ r2 = 0 ∨ r2 = 1)
    (_hne : r1 ≠ r2) :
    (∀ (L L' : List Rating) (cookie : Option String) (minted : String)
        (wid : ℕ) (v : ℤ) (s : RatingStats),
      at_most_one_per_key L →
      rate_word cat L cookie minted wid v = .ok (L', s) →
      at_most_one_per_key L' ∧ at_most_one_per_triple L') ∧
    (∃ s1, rate_word cat [] none u w r1 = .ok ([⟨u, w, "overall", r1⟩], s1)) ∧
    (∃ s2, rate_word cat [⟨u, w, "overall", r1⟩] none u w r2 =
      .ok ([⟨u, w, "overall", r2⟩], s2)) ∧
    (get_rating_stats [⟨u, w, "overall", r2⟩] w).total = 1 ∧
    (r2 = -1 → (get_rating_stats [⟨u, w, "overall", r2⟩] w).thumbs_down = 1) ∧
    (r2 = 0 → (get_rating_stats [⟨u, w, "overall", r2⟩] w).hyphen = 1) ∧
    (r2 = 1 → (get_rating_stats [⟨u, w, "overall", r2⟩] w).thumbs_up = 1) := by
  obtain ⟨wd, hwd⟩ := Option.isSome_iff_exists.mp hw
  refine ⟨?_, ?_, ?_, ?_, ?_, ?_, ?_⟩
  · intro L L' cookie minted wid v s hL hok
    unfold rate_word at hok
    generalize huid : (get_or_create_user_id cookie).getD minted = uid at hok
    cases hf : find_word_by_id cat wid <;> rw [hf] at hok <;>
      dsimp only [] at hok
    · exact absurd hok (by simp)
    by_cases hv : v = -1 ∨ v = 0 ∨ v = 1
    · rw [if_pos hv] at hok
      suffices hkey : at_most_one_per_key L' by
        exact ⟨hkey, fun u' w' t' =>
          Nat.le_trans (countP_triple_le_countP_key L' u' w' t') (hkey u' w')⟩
      cases hfr : find_rating L uid wid <;> rw [hfr] at hok <;>
        dsimp only [] at hok <;>
        simp only [Except.ok.injEq, Prod.mk.injEq] at hok <;>
        obtain ⟨hL', _⟩ := hok
      · -- insert branch
        have hzero := countP_key_eq_zero_of_find_rating_none L uid wid hfr
        intro u' w'
        rw [← hL', List.countP_append]
        by_cases hk : u' = uid ∧ w' = wid
        · obtain ⟨hu', hw'⟩ := hk
          subst hu' hw'
          simp [List.countP_cons, hzero]
        · have hrow : ((⟨uid, wid, "overall", v⟩ : Rating).user_id == u' &&
              (⟨uid, wid, "overall", v⟩ : Rating).word_id == w') = false := by
            rcases not_and_or.mp hk with h | h <;>
              simp [beq_eq_false_iff_ne.mpr (Ne.symm h)]
          simpa [List.countP_cons, hrow] using hL u' w'
      · -- update branch
        intro u' w'
        rw [← hL',
          countP_update_first_rating
            (fun r => r.user_id == u' && r.word_id == w')
            (fun r vv => rfl) L uid wid v]
        exact hL u' w'
    · rw [if_neg hv] at hok
      exact absurd hok (by simp)
  · exact ⟨get_rating_stats [⟨u, w, "overall", r1⟩] w, by
      simp [rate_word, hwd, get_or_create_user_id, find_rating, if_pos h1]⟩
  · exact ⟨get_rating_stats [⟨u, w, "overall", r2⟩] w, by
      simp [rate_word, hwd, get_or_create_user_id, find_rating, if_pos h2,
        update_first_rating]⟩
  · simp [get_rating_stats]
  · intro hr2
    simp [get_rating_stats, hr2]
  · intro hr2
    simp [get_rating_stats, hr2]
  · intro hr2
    simp [get_rating_stats, hr2]

/-- Witness for rate_word_upsert_unique: word 1 of the three-word catalog,
rated 1 then 0 by the same user. -/
theorem rate_word_upsert_unique_witness :
    (∀ (L L' : List Rating) (cookie : Option String) (minted : String)
        (wid : ℕ) (v : ℤ) (s : RatingStats),
      at_most_one_per_key L →
      rate_word exCatalog L cookie minted wid v = .ok (L', s) →
      at_most_one_per_key L' ∧ at_most_one_per_triple L') ∧
    (∃ s1, rate_word exCatalog [] none "u" 1 1 =
      .ok ([⟨"u", 1, "overall", 1⟩], s1)) ∧
    (∃ s2, rate_word exCatalog [⟨"u", 1, "overall", 1⟩] none "u" 1 0 =
      .ok ([⟨"u", 1, "overall", 0⟩], s2)) ∧
    (get_rating_stats [⟨"u", 1, "overall", 0⟩] 1).total = 1 ∧
    ((0 : ℤ) = -1 → (get_rating_stats [⟨"u", 1, "overall", 0⟩] 1).thumbs_down = 1) ∧
    ((0 : ℤ) = 0 → (get_rating_stats [⟨"u", 1, "overall", 0⟩] 1).hyphen = 1) ∧
    ((0 : ℤ) = 1 → (get_rating_stats [⟨"u", 1, "overall", 0⟩] 1).thumbs_up = 1) :=
  rate_word_upsert_unique exCatalog 1 "u" 1 0 (by decide) (by decide)
    (by decide) (by decide)

/-- Claim C8: unrate_word answers 401 without an identity, 404 on an unknown
word; with both present it deletes the caller's rating row for the word if
one exists — dropping exactly that row — and succeeds unchanged when none
exists. -/
theorem unrate_word_spec (cat : List Word) (L : List Rating)
    (cookie : Option String) (u : String) (w : ℕ)
    (hcu : get_or_create_user_id cookie = some u) :
    (unrate_word cat L none w = .error ⟨401, "User not authenticated"⟩) ∧
    (unrate_word cat L (some "None") w = .error ⟨401, "User not authenticated"⟩) ∧
    (find_word_by_id cat w = none →
      unrate_word cat L cookie w = .error ⟨404, "Word not found"⟩) ∧
    ((find_word_by_id cat w).isSome → find_rating L u w = none →
      unrate_word cat L cookie w = .ok (L, get_rating_stats L w)) ∧
    ((find_word_by_id cat w).isSome → (find_rating L u w).isSome →
      unrate_word cat L cookie w =
        .ok (remove_first_rating L u w,
          get_rating_stats (remove_first_rating L u w) w) ∧
      (remove_first_rating L u w).countP
          (fun r => r.user_id == u && r.word_id == w) + 1 =
        L.countP (fun r => r.user_id == u && r.word_id == w) ∧
      (remove_first_rating L u w).filter
          (fun r => !(r.user_id == u && r.word_id == w)) =
        L.filter (fun r => !(r.user_id == u && r.word_id == w))) := by
  refine ⟨rfl, rfl, ?_, ?_, ?_⟩
  · intro hf
    simp [unrate_word, hcu, hf]
  · intro hw hfr
    obtain ⟨wd, hwd⟩ := Option.isSome_iff_exists.mp hw
    simp [unrate_word, hcu, hwd, hfr]
  · intro hw hfr
    obtain ⟨wd, hwd⟩ := Option.isSome_iff_exists.mp hw
    obtain ⟨r, hr⟩ := Option.isSome_iff_exists.mp hfr
    refine ⟨by simp [unrate_word, hcu, hwd, hr], ?_, ?_⟩
    · exact countP_key_remove_first_rating L u w hfr
    · exact filter_not_key_remove_first_rating L u w

/-- Witness for unrate_word_spec: the cookie "c" resolves to identity "c"
on a one-row ledger over the three-word catalog. -/
theorem unrate_word_spec_witness :
    (unrate_word exCatalog [⟨"c", 1, "overall", 1⟩] none 1 =
      .error ⟨401, "User not authenticated"⟩) ∧
    (unrate_word exCatalog [⟨"c", 1, "overall", 1⟩] (some "None") 1 =
      .error ⟨401, "User not authenticated"⟩) ∧
    (find_word_by_id exCatalog 1 = none →
      unrate_word exCatalog [⟨"c", 1, "overall", 1⟩] (some "c") 1 =
        .error ⟨404, "Word not found"⟩) ∧
    ((find_word_by_id exCatalog 1).isSome →
      find_rating [⟨"c", 1, "overall", 1⟩] "c" 1 = none →
      unrate_word exCatalog [⟨"c", 1, "overall", 1⟩] (some "c") 1 =
        .ok ([⟨"c", 1, "overall", 1⟩],
          get_rating_stats [⟨"c", 1, "overall", 1⟩] 1)) ∧
    ((find_word_by_id exCatalog 1).isSome →
      (find_rating [⟨"c", 1, "overall", 1⟩] "c" 1).isSome →
      unrate_word exCatalog [⟨"c", 1, "overall", 1⟩] (some "c") 1 =
        .ok (remove_first_rating [⟨"c", 1, "overall", 1⟩] "c" 1,
          get_rating_stats (remove_first_rating [⟨"c", 1, "overall", 1⟩] "c" 1) 1) ∧
      (remove_first_rating [⟨"c", 1, "overall", 1⟩] "c" 1).countP
          (fun r => r.user_id == "c" && r.word_id == 1) + 1 =
        ([⟨"c", 1, "overall", 1⟩] : List Rating).countP
          (fun r => r.user_id == "c" && r.word_id == 1) ∧
      (remove_first_rating [⟨"c", 1, "overall", 1⟩] "c" 1).filter
          (fun r => !(r.user_id == "c" && r.word_id == 1)) =
        ([⟨"c", 1, "overall", 1⟩] : List Rating).filter
          (fun r => !(r.user_id == "c" && r.word_id == 1))) :=
  unrate_word_spec exCatalog [⟨"c", 1, "overall", 1⟩] (some "c") "c" 1 rfl

/-! ### Catalog order lemmas -/

/-- Characterisation of the least element of a list of ids. -/
theorem nat_min?_eq_some {l : List ℕ} {a : ℕ} :
    l.min? = some a ↔ a ∈ l ∧ ∀ b ∈ l, a ≤ b :=
  List.min?_eq_some_iff (fun a => le_refl a) (fun a b => min_choice a b)
    (fun _ _ _ => le_min_iff)

/-- Characterisation of the greatest element of a list of ids. -/
theorem nat_max?_eq_some {l : List ℕ} {a : ℕ} :
    l.max? = some a ↔ a ∈ l ∧ ∀ b ∈ l, b ≤ a :=
  List.max?_eq_some_iff (fun a => le_refl a) (fun a b => max_choice a b)
    (fun _ _ _ => max_le_iff)

/-- Claim C5: on every id present in the catalog, the wrapping successor and
predecessor are mutually inverse — next (prev id) = id and
prev (next id) = id, wraparound at the least and greatest id included. -/
theorem next_prev_roundtrip (catalog : List Word) (wid : ℕ)
    (h : wid ∈ word_ids catalog) :
    (get_prev_word_id catalog wid).bind (get_next_word_id catalog) = some wid ∧
    (get_next_word_id catalog wid).bind (get_prev_word_id catalog) = some wid := by
  constructor
  · unfold get_prev_word_id
    cases hm : ((word_ids catalog).filter (fun i => i < wid)).max? with
    | some p =>
      obtain ⟨hpmem, hpub⟩ := nat_max?_eq_some.mp hm
      rw [List.mem_filter] at hpmem
      obtain ⟨hpids, hplt⟩ := hpmem
      have hplt' : p < wid := by simpa using hplt
      show get_next_word_id catalog p = some wid
      unfold get_next_word_id
      have hwmem : wid ∈ (word_ids catalog).filter (fun i => p < i) := by
        rw [List.mem_filter]
        exact ⟨h, by simpa using hplt'⟩
      cases hn : ((word_ids catalog).filter (fun i => p < i)).min? with
      | none =>
        rw [List.min?_eq_none_iff] at hn
        rw [hn] at hwmem
        simp at hwmem
      | some m =>
        obtain ⟨hmmem, hmlb⟩ := nat_min?_eq_some.mp hn
        rw [List.mem_filter] at hmmem
        obtain ⟨hmids, hpm⟩ := hmmem
        have hpm' : p < m := by simpa using hpm
        have hmw : m ≤ wid := hmlb wid hwmem
        have hnotlt : ¬ m < wid := by
          intro hlt
          have hmf : m ∈ (word_ids catalog).filter (fun i => i < wid) := by
            rw [List.mem_filter]
            exact ⟨hmids, by simpa using hlt⟩
          have := hpub m hmf
          omega
        have : m = wid := by omega
        simp [this]
    | none =>
      have hall : ∀ x ∈ word_ids catalog, ¬ x < wid := by
        intro x hx hlt
        have hxf : x ∈ (word_ids catalog).filter (fun i => i < wid) := by
          rw [List.mem_filter]
          exact ⟨hx, by simpa using hlt⟩
        rw [List.max?_eq_none_iff] at hm
        rw [hm] at hxf
        simp at hxf
      cases hM : (word_ids catalog).max? with
      | none =>
        rw [List.max?_eq_none_iff] at hM
        rw [hM] at h
        simp at h
      | some M =>
        obtain ⟨hMmem, hMub⟩ := nat_max?_eq_some.mp hM
        show get_next_word_id catalog M = some wid
        unfold get_next_word_id
        have hfe : (word_ids catalog).filter (fun i => M < i) = [] := by
          rw [List.filter_eq_nil_iff]
          intro x hx
          have := hMub x hx
          simp
          omega
        rw [hfe]
        have : (word_ids catalog).min? = some wid :=
          nat_min?_eq_some.mpr ⟨h, fun b hb => by have := hall b hb; omega⟩
        simp [this]
  · unfold get_next_word_id
    cases hm : ((word_ids catalog).filter (fun i => wid < i)).min? with
    | some n =>
      obtain ⟨hnmem, hnlb⟩ := nat_min?_eq_some.mp hm
      rw [List.mem_filter] at hnmem
      obtain ⟨hnids, hngt⟩ := hnmem
      have hngt' : wid < n := by simpa using hngt
      show get_prev_word_id catalog n = some wid
      unfold get_prev_word_id
      have hwmem : wid ∈ (word_ids catalog).filter (fun i => i < n) := by
        rw [List.mem_filter]
        exact ⟨h, by simpa using hngt'⟩
      cases hp : ((word_ids catalog).filter (fun i => i < n)).max? with
      | none =>
        rw [List.max?_eq_none_iff] at hp
        rw [hp] at hwmem
        simp at hwmem
      | some m =>
        obtain ⟨hmmem, hmub⟩ := nat_max?_eq_some.mp hp
        rw [List.mem_filter] at hmmem
        obtain ⟨hmids, hmn⟩ := hmmem
        have hmn' : m < n := by simpa using hmn
        have hwm : wid ≤ m := hmub wid hwmem
        have hnotlt : ¬ wid < m := by
          intro hlt
          have hmf : m ∈ (word_ids catalog).filter (fun i => wid < i) := by
            rw [List.mem_filter]
            exact ⟨hmids, by simpa using hlt⟩
          have := hnlb m hmf
          omega
        have : m = wid := by omega
        simp [this]
    | none =>
      have hall : ∀ x ∈ word_ids catalog, ¬ wid < x := by
        intro x hx hlt
        have hxf : x ∈ (word_ids catalog).filter (fun i => wid < i) := by
          rw [List.mem_filter]
          exact ⟨hx, by simpa using hlt⟩
        rw [List.min?_eq_none_iff] at hm
        rw [hm] at hxf
        simp at hxf
      cases hM : (word_ids catalog).min? with
      | none =>
        rw [List.min?_eq_none_iff] at hM
        rw [hM] at h
        simp at h
      | some M =>
        obtain ⟨hMmem, hMlb⟩ := nat_min?_eq_some.mp hM
        show get_prev_word_id catalog M = some wid
        unfold get_prev_word_id
        have hfe : (word_ids catalog).filter (fun i => i < M) = [] := by
          rw [List.filter_eq_nil_iff]
          intro x hx
          have := hMlb x hx
          simp
          omega
        rw [hfe]
        have : (word_ids catalog).max? = some wid :=
          nat_max?_eq_some.mpr ⟨h, fun b hb => by have := hall b hb; omega⟩
        simp [this]

/-- Witness for next_prev_roundtrip at id 2 of the three-word catalog. -/
theorem next_prev_roundtrip_witness :
    (get_prev_word_id exCatalog 2).bind (get_next_word_id exCatalog) = some 2 ∧
    (get_next_word_id exCatalog 2).bind (get_prev_word_id exCatalog) = some 2 :=
  next_prev_roundtrip exCatalog 2 (by decide)

/-! ### Catalog reload lemmas -/

/-- Every row after an in-place update traces back to a row of the old
table with the same id and the same name. -/
theorem update_first_word_mem (ws : List Word) (e : SourceEntry) :
    ∀ w' ∈ update_first_word ws e, ∃ w ∈ ws, w'.id = w.id ∧ w'.word = w.word := by
  induction ws with
  | nil => simp [update_first_word]
  | cons w tl ih =>
    unfold update_first_word
    by_cases h : w.word = e.name
    · rw [if_pos h]
      intro w' hw'
      rcases List.mem_cons.mp hw' with h' | h'
      · exact ⟨w, List.mem_cons_self _ _, by subst h'; exact ⟨rfl, rfl⟩⟩
      · exact ⟨w', List.mem_cons_of_mem _ h', rfl, rfl⟩
    · rw [if_neg h]
      intro w' hw'
      rcases List.mem_cons.mp hw' with h' | h'
      · subst h'
        exact ⟨w', List.mem_cons_self _ _, rfl, rfl⟩
      · obtain ⟨w0, hw0, hid, hword⟩ := ih w' h'
        exact ⟨w0, List.mem_cons_of_mem _ hw0, hid, hword⟩

/-- Every row of the old table survives an in-place update with its id and
its name intact. -/
theorem update_first_word_preserves (ws : List Word) (e : SourceEntry) :
    ∀ w ∈ ws, ∃ w' ∈ update_first_word ws e, w'.id = w.id ∧ w'.word = w.word := by
  induction ws with
  | nil => simp
  | cons w0 tl ih =>
    unfold update_first_word
    by_cases h : w0.word = e.name
    · rw [if_pos h]
      intro w hw
      rcases List.mem_cons.mp hw with h' | h'
      · subst h'
        exact ⟨update_word_fields w e, List.mem_cons_self _ _, rfl, rfl⟩
      · exact ⟨w, List.mem_cons_of_mem _ h', rfl, rfl⟩
    · rw [if_neg h]
      intro w hw
      rcases List.mem_cons.mp hw with h' | h'
      · subst h'
        exact ⟨w, List.mem_cons_self _ _, rfl, rfl⟩
      · obtain ⟨w', hw', hid, hword⟩ := ih w h'
        exact ⟨w', List.mem_cons_of_mem _ hw', hid, hword⟩

/-- Invariants of migrate_data's fold: the autoincrement counter bounds
every id and never decreases; every pre-existing row survives with id and
name intact; and every row of the result either matches a pre-existing row
(same id, same name) or is a fresh insertion (id unused before, at least the
old counter, named by one of the incoming entries). -/
theorem migrate_fold_spec (es : List SourceEntry) :
    ∀ (ws : List Word) (k : ℕ), (∀ w ∈ ws, w.id < k) →
    (∀ w ∈ (es.foldl migrate_step (ws, k)).1, w.id < (es.foldl migrate_step (ws, k)).2) ∧
    k ≤ (es.foldl migrate_step (ws, k)).2 ∧
    (∀ w ∈ ws, ∃ w' ∈ (es.foldl migrate_step (ws, k)).1,
      w'.id = w.id ∧ w'.word = w.word) ∧
    (∀ w' ∈ (es.foldl migrate_step (ws, k)).1,
      (∃ w ∈ ws, w'.id = w.id ∧ w'.word = w.word) ∨
      ((∀ w ∈ ws, w'.id ≠ w.id) ∧ k ≤ w'.id ∧
        w'.word ∈ es.map (fun e => e.name))) := by
  induction es with
  | nil =>
    intro ws k hk
    refine ⟨hk, le_refl k, ?_, ?_⟩
    · intro w hw
      exact ⟨w, hw, rfl, rfl⟩
    · intro w' hw'
      exact Or.inl ⟨w', hw', rfl, rfl⟩
  | cons e tl ih =>
    intro ws k hk
    rw [List.foldl_cons]
    -- the step's effect, by cases on migrate_step's branches
    have hstep :
        (∀ w ∈ (migrate_step (ws, k) e).1, w.id < (migrate_step (ws, k) e).2) ∧
        k ≤ (migrate_step (ws, k) e).2 ∧
        (∀ w ∈ ws, ∃ w' ∈ (migrate_step (ws, k) e).1,
          w'.id = w.id ∧ w'.word = w.word) ∧
        (∀ w' ∈ (migrate_step (ws, k) e).1,
          (∃ w ∈ ws, w'.id = w.id ∧ w'.word = w.word) ∨
          ((∀ w ∈ ws, w'.id ≠ w.id) ∧ k ≤ w'.id ∧ w'.word = e.name)) := by
      unfold migrate_step
      by_cases h0 : e.name = ""
      · rw [if_pos h0]
        refine ⟨hk, le_refl k, ?_, ?_⟩
        · intro w hw
          exact ⟨w, hw, rfl, rfl⟩
        · intro w' hw'
          exact Or.inl ⟨w', hw', rfl, rfl⟩
      rw [if_neg h0]
      by_cases h1 : ws.any (fun w => w.word == e.name)
      · rw [if_pos h1]
        refine ⟨?_, le_refl k, update_first_word_preserves ws e, ?_⟩
        · intro w hw
          obtain ⟨w0, hw0, hid, _⟩ := update_first_word_mem ws e w hw
          rw [hid]
          exact hk w0 hw0
        · intro w' hw'
          exact Or.inl (update_first_word_mem ws e w' hw')
      · rw [if_neg h1]
        refine ⟨?_, Nat.le_succ k, ?_, ?_⟩
        · intro w hw
          rcases List.mem_append.mp hw with h' | h'
          · exact Nat.lt_succ_of_lt (hk w h')
          · rw [List.mem_singleton.mp h']
            exact Nat.lt_succ_self k
        · intro w hw
          exact ⟨w, List.mem_append_left _ hw, rfl, rfl⟩
        · intro w' hw'
          rcases List.mem_append.mp hw' with h' | h'
          · exact Or.inl ⟨w', h', rfl, rfl⟩
          · rw [List.mem_singleton.mp h']
            refine Or.inr ⟨?_, le_refl k, rfl⟩
            intro w hw
            have := hk w hw
            simp [new_word]
            omega
    obtain ⟨ha, hb, hc, hd⟩ := hstep
    obtain ⟨ia, ib, ic, id'⟩ := ih (migrate_step (ws, k) e).1 (migrate_step (ws, k) e).2 ha
    have hpair : ((migrate_step (ws, k) e).1, (migrate_step (ws, k) e).2) =
        migrate_step (ws, k) e := rfl
    rw [hpair] at ia ib ic id'
    refine ⟨ia, le_trans hb ib, ?_, ?_⟩
    · intro w hw
      obtain ⟨wm, hwm, hid1, hword1⟩ := hc w hw
      obtain ⟨w', hw', hid2, hword2⟩ := ic wm hwm
      exact ⟨w', hw', by rw [hid2, hid1], by rw [hword2, hword1]⟩
    · intro w' hw'
      rcases id' w' hw' with ⟨wm, hwm, hid1, hword1⟩ | ⟨hfresh, hge, hname⟩
      · rcases hd wm hwm with ⟨w0, hw0, hid2, hword2⟩ | ⟨hfresh, hge, hname⟩
        · exact Or.inl ⟨w0, hw0, by rw [hid1, hid2], by rw [hword1, hword2]⟩
        · refine Or.inr ⟨?_, ?_, ?_⟩
          · intro w hw
            rw [hid1]
            exact hfresh w hw
          · rw [hid1]
            exact hge
          · rw [hword1, hname]
            simp
      · refine Or.inr ⟨?_, le_trans hb hge, List.mem_cons_of_mem _ hname⟩
        intro w hw
        obtain ⟨wm, hwm, hid2, _⟩ := hc w hw
        rw [← hid2]
        exact hfresh wm hwm

/-- Claim C6: a catalog reload leaves the ratings table — and every word's
rating count — untouched; every pre-existing word survives with its id and
name unchanged (nothing is deleted); any word the reload adds carries a
fresh id (never an id a pre-existing word holds, hence never one ratings
reference) and the name of an incoming entry; an in-place update overwrites
exactly the descriptive fields, never id or name; and a single-entry reload
updates the matching row in place or appends a fresh row as its name
dictates. -/
theorem migrate_data_reload_spec (db : DbState) (entries : List SourceEntry)
    (hk : ∀ w ∈ db.words, w.id < db.next_id) :
    ((migrate_data db entries).ratings = db.ratings) ∧
    (∀ wid, count_ratings_for ((migrate_data db entries).ratings) wid =
      count_ratings_for db.ratings wid) ∧
    (∀ w ∈ db.words, ∃ w' ∈ (migrate_data db entries).words,
      w'.id = w.id ∧ w'.word = w.word) ∧
    (∀ w' ∈ (migrate_data db entries).words,
      (∀ w ∈ db.words, w'.id ≠ w.id) →
      db.next_id ≤ w'.id ∧ w'.word ∈ entries.map (fun e => e.name)) ∧
    (∀ (w : Word) (e : SourceEntry),
      (update_word_fields w e).id = w.id ∧
      (update_word_fields w e).word = w.word ∧
      (update_word_fields w e).definition = e.definition ∧
      (update_word_fields w e).part_of_speech = e.part_of_speech ∧
      (update_word_fields w e).etymology = e.etymology ∧
      (update_word_fields w e).chapter = e.chapter ∧
      (update_word_fields w e).concept = e.concept ∧
      (update_word_fields w e).tags = e.tags ∧
      (update_word_fields w e).example_sentences = e.example_sentences) ∧
    (∀ (e : SourceEntry), e.name ≠ "" →
      ((∃ w ∈ db.words, w.word = e.name) →
        (migrate_data db [e]).words = update_first_word db.words e) ∧
      ((∀ w ∈ db.words, w.word ≠ e.name) →
        (migrate_data db [e]).words = db.words ++ [new_word db.next_id e])) := by
  obtain ⟨-, -, hc, hd⟩ := migrate_fold_spec entries db.words db.next_id hk
  refine ⟨rfl, fun wid => rfl, hc, ?_, ?_, ?_⟩
  · intro w' hw' hfresh
    rcases hd w' hw' with ⟨w, hw, hid, _⟩ | ⟨_, hge, hname⟩
    · exact absurd hid (hfresh w hw)
    · exact ⟨hge, hname⟩
  · intro w e
    exact ⟨rfl, rfl, rfl, rfl, rfl, rfl, rfl, rfl, rfl⟩
  · intro e hne0
    constructor
    · intro hex
      have hany : db.words.any (fun w => w.word == e.name) = true := by
        rw [List.any_eq_true]
        obtain ⟨w, hw, hword⟩ := hex
        exact ⟨w, hw, by simp [hword]⟩
      show (migrate_step (db.words, db.next_id) e).1 = _
      unfold migrate_step
      rw [if_neg hne0, if_pos hany]
    · intro hnone
      have hany : db.words.any (fun w => w.word == e.name) = false := by
        rw [List.any_eq_false]
        intro w hw
        simp [hnone w hw]
      show (migrate_step (db.words, db.next_id) e).1 = _
      unfold migrate_step
      rw [if_neg hne0, hany]
      simp

/-- Witness for migrate_data_reload_spec: a two-word table with counter 3,
one attached rating, reloaded from a single incoming entry. -/
theorem migrate_data_reload_spec_witness :
    ((migrate_data ⟨[exW 1 "alpha", exW 2 "beta"], 3, [⟨"u", 1, "overall", 1⟩]⟩
        [⟨"alpha", "d", "p", "e", "c", "o", "t", "s"⟩]).ratings =
      [⟨"u", 1, "overall", 1⟩]) ∧
    (∀ wid,
      count_ratings_for
        ((migrate_data ⟨[exW 1 "alpha", exW 2 "beta"], 3, [⟨"u", 1, "overall", 1⟩]⟩
          [⟨"alpha", "d", "p", "e", "c", "o", "t", "s"⟩]).ratings) wid =
      count_ratings_for [⟨"u", 1, "overall", 1⟩] wid) ∧
    (∀ w ∈ [exW 1 "alpha", exW 2 "beta"],
      ∃ w' ∈ (migrate_data ⟨[exW 1 "alpha", exW 2 "beta"], 3, [⟨"u", 1, "overall", 1⟩]⟩
        [⟨"alpha", "d", "p", "e", "c", "o", "t", "s"⟩]).words,
      w'.id = w.id ∧ w'.word = w.word) ∧
    (∀ w' ∈ (migrate_data ⟨[exW 1 "alpha", exW 2 "beta"], 3, [⟨"u", 1, "overall", 1⟩]⟩
        [⟨"alpha", "d", "p", "e", "c", "o", "t", "s"⟩]).words,
      (∀ w ∈ [exW 1 "alpha", exW 2 "beta"], w'.id ≠ w.id) →
      3 ≤ w'.id ∧ w'.word ∈
        List.map (fun e => e.name)
          ([⟨"alpha", "d", "p", "e", "c", "o", "t", "s"⟩] : List SourceEntry)) ∧
    (∀ (w : Word) (e : SourceEntry),
      (update_word_fields w e).id = w.id ∧
      (update_word_fields w e).word = w.word ∧
      (update_word_fields w e).definition = e.definition ∧
      (update_word_fields w e).part_of_speech = e.part_of_speech ∧
      (update_word_fields w e).etymology = e.etymology ∧
      (update_word_fields w e).chapter = e.chapter ∧
      (update_word_fields w e).concept = e.concept ∧
      (update_word_fields w e).tags = e.tags ∧
      (update_word_fields w e).example_sentences = e.example_sentences) ∧
    (∀ (e : SourceEntry), e.name ≠ "" →
      ((∃ w ∈ [exW 1 "alpha", exW 2 "beta"], w.word = e.name) →
        (migrate_data ⟨[exW 1 "alpha", exW 2 "beta"], 3, [⟨"u", 1, "overall", 1⟩]⟩
          [e]).words = update_first_word [exW 1 "alpha", exW 2 "beta"] e) ∧
      ((∀ w ∈ [exW 1 "alpha", exW 2 "beta"], w.word ≠ e.name) →
        (migrate_data ⟨[exW 1 "alpha", exW 2 "beta"], 3, [⟨"u", 1, "overall", 1⟩]⟩
          [e]).words = [exW 1 "alpha", exW 2 "beta"] ++ [new_word 3 e])) :=
  migrate_data_reload_spec
    ⟨[exW 1 "alpha", exW 2 "beta"], 3, [⟨"u", 1, "overall", 1⟩]⟩
    [⟨"alpha", "d", "p", "e", "c", "o", "t", "s"⟩] (by decide)

/-! ### Stable sort lemmas -/

/-- Inserting permutes: insertion only chooses a position. -/
theorem insert_le_perm {α : Type} (le : α → α → Bool) (x : α) (l : List α) :
    (insert_le le x l).Perm (x :: l) := by
  induction l with
  | nil => exact List.Perm.refl _
  | cons y t ih =>
    unfold insert_le
    by_cases h : le y x = true
    · rw [if_pos h]
      exact (ih.cons y).trans (List.Perm.swap x y t)
    · rw [if_neg h]

/-- The fold underlying stable_sort permutes its input onto the seed. -/
theorem foldl_insert_le_perm {α : Type} (le : α → α → Bool)
    (l : List α) : ∀ acc : List α,
    (l.foldl (fun acc x => insert_le le x acc) acc).Perm (acc ++ l) := by
  induction l with
  | nil => intro acc; simp
  | cons x t ih =>
    intro acc
    rw [List.foldl_cons]
    refine (ih (insert_le le x acc)).trans ?_
    refine (List.Perm.append_right t (insert_le_perm le x acc)).trans ?_
    exact List.perm_middle.symm

/-- stable_sort returns a permutation of its input. -/
theorem stable_sort_perm {α : Type} (le : α → α → Bool) (l : List α) :
    (stable_sort le l).Perm l := by
  simpa using foldl_insert_le_perm le l []

/-- Inserting into a sorted list keeps it sorted, for a total transitive
comparison. -/
theorem insert_le_pairwise {α : Type} {le : α → α → Bool}
    (htot : ∀ a b, le a b || le b a)
    (htrans : ∀ a b c, le a b = true → le b c = true → le a c = true)
    (x : α) (l : List α) (hl : l.Pairwise (fun a b => le a b = true)) :
    (insert_le le x l).Pairwise (fun a b => le a b = true) := by
  induction l with
  | nil => simp [insert_le]
  | cons y t ih =>
    rw [List.pairwise_cons] at hl
    obtain ⟨hy, ht⟩ := hl
    unfold insert_le
    by_cases h : le y x = true
    · rw [if_pos h]
      rw [List.pairwise_cons]
      refine ⟨?_, ih ht⟩
      intro z hz
      have hz' : z ∈ x :: t := (insert_le_perm le x t).mem_iff.mp hz
      rcases List.mem_cons.mp hz' with h' | h'
      · rw [h']
        exact h
      · exact hy z h'
    · rw [if_neg h]
      rw [List.pairwise_cons]
      have hxy : le x y = true := by
        rcases Bool.or_eq_true _ _ |>.mp (htot y x) with h' | h'
        · exact absurd h' h
        · exact h'
      refine ⟨?_, List.pairwise_cons.mpr ⟨hy, ht⟩⟩
      intro z hz
      rcases List.mem_cons.mp hz with h' | h'
      · rw [h']
        exact hxy
      · exact htrans x y z hxy (hy z h')

/-- stable_sort sorts, for a total transitive comparison. -/
theorem stable_sort_pairwise {α : Type} {le : α → α → Bool}
    (htot : ∀ a b, le a b || le b a)
    (htrans : ∀ a b c, le a b = true → le b c = true → le a c = true)
    (l : List α) :
    (stable_sort le l).Pairwise (fun a b => le a b = true) := by
  suffices h : ∀ acc : List α, acc.Pairwise (fun a b => le a b = true) →
      (l.foldl (fun acc x => insert_le le x acc) acc).Pairwise
        (fun a b => le a b = true) from h [] (by simp)
  induction l with
  | nil =>
    intro acc hacc
    simpa using hacc
  | cons x t ih =>
    intro acc hacc
    rw [List.foldl_cons]
    exact ih _ (insert_le_pairwise htot htrans x acc hacc)

/-- The leaderboard comparison is total. -/
theorem leaderboard_key_le_total (x y : ℚ × ℕ) :
    leaderboard_key_le x y || leaderboard_key_le y x := by
  unfold leaderboard_key_le
  simp only [Bool.or_eq_true, Bool.and_eq_true, decide_eq_true_eq]
  rcases lt_trichotomy x.1 y.1 with h | h | h
  · exact Or.inr (Or.inl h)
  · rcases le_total x.2 y.2 with h2 | h2
    · exact Or.inr (Or.inr ⟨h.symm, h2⟩)
    · exact Or.inl (Or.inr ⟨h, h2⟩)
  · exact Or.inl (Or.inl h)

/-- The leaderboard comparison is transitive. -/
theorem leaderboard_key_le_trans (x y z : ℚ × ℕ) :
    leaderboard_key_le x y = true → leaderboard_key_le y z = true →
    leaderboard_key_le x z = true := by
  unfold leaderboard_key_le
  simp only [Bool.or_eq_true, Bool.and_eq_true, decide_eq_true_eq]
  rintro (h1 | ⟨he1, hc1⟩) (h2 | ⟨he2, hc2⟩)
  · exact Or.inl (lt_trans h2 h1)
  · exact Or.inl (he2 ▸ h1)
  · exact Or.inl (by rw [he1]; exact h2)
  · exact Or.inr ⟨he1.trans he2, le_trans hc2 hc1⟩

/-- Claim C1, amended: get_leaderboard returns all catalog words (as a
permutation of the catalog's ids) ordered descending by the pair
(Bayesian-smoothed net score, total rating count): any later entry has a
strictly smaller Bayesian score, or an equal score and no larger total. -/
theorem get_leaderboard_ranking (catalog : List Word) (ledger : List Rating) :
    ((get_leaderboard catalog ledger).map (fun e => e.word_id)).Perm
      (catalog.map (fun w => w.id)) ∧
    List.Pairwise (fun a b =>
      bayesian_score (global_prior catalog ledger) b <
        bayesian_score (global_prior catalog ledger) a ∨
      (bayesian_score (global_prior catalog ledger) a =
          bayesian_score (global_prior catalog ledger) b ∧
        b.total_ratings ≤ a.total_ratings))
      (get_leaderboard catalog ledger) := by
  have hgl : get_leaderboard catalog ledger =
      (stable_sort (fun x y => leaderboard_key_le x.1 y.1)
        (catalog.map (fun w =>
          ((bayesian_score (global_prior catalog ledger) (leaderboard_entry ledger w),
            (leaderboard_entry ledger w).total_ratings),
            leaderboard_entry ledger w)))).map (fun p => p.2) := rfl
  have htot : ∀ a b : (ℚ × ℕ) × LeaderboardEntry,
      leaderboard_key_le a.1 b.1 || leaderboard_key_le b.1 a.1 :=
    fun a b => leaderboard_key_le_total a.1 b.1
  have htrans : ∀ a b c : (ℚ × ℕ) × LeaderboardEntry,
      leaderboard_key_le a.1 b.1 = true → leaderboard_key_le b.1 c.1 = true →
      leaderboard_key_le a.1 c.1 = true :=
    fun a b c => leaderboard_key_le_trans a.1 b.1 c.1
  constructor
  · rw [hgl, List.map_map]
    refine ((stable_sort_perm _ _).map _).trans ?_
    rw [List.map_map]
    exact List.Perm.refl _
  · rw [hgl, List.pairwise_map]
    have hsorted := stable_sort_pairwise htot htrans
      (catalog.map (fun w =>
        ((bayesian_score (global_prior catalog ledger) (leaderboard_entry ledger w),
          (leaderboard_entry ledger w).total_ratings),
          leaderboard_entry ledger w)))
    refine List.Pairwise.imp_of_mem ?_ hsorted
    intro a b ha hb hab
    have hmem : ∀ q ∈ stable_sort (fun x y => leaderboard_key_le x.1 y.1)
        (catalog.map (fun w =>
          ((bayesian_score (global_prior catalog ledger) (leaderboard_entry ledger w),
            (leaderboard_entry ledger w).total_ratings),
            leaderboard_entry ledger w))),
        q.1 = (bayesian_score (global_prior catalog ledger) q.2,
          q.2.total_ratings) := by
      intro q hq
      have hq' := (stable_sort_perm _ _).mem_iff.mp hq
      rw [List.mem_map] at hq'
      obtain ⟨w, _, rfl⟩ := hq'
      rfl
    rw [hmem a ha, hmem b hb] at hab
    simpa [leaderboard_key_le] using hab

end Sorrows
